/-
  Verification of the marketplace-processor report lifecycle engine.

  The repository ships only its test modules under `processor/`; the
  implementation modules (`report_processor`, `abstract_processor`,
  `report_consumer`) are not part of the source tree.  Every definition
  below is therefore modelled from the specification (spec.md), with the
  unit tests in `tests_report_processor.py` and `tests_report_consumer.py`
  serving as the authoritative record of the observable behaviour wherever
  they pin it down.  Timestamps are minutes-since-epoch naturals; JSON
  payloads are a small inductive value type; a tar member whose bytes do
  not decode is represented by an absent (`Option.none`) payload.
-/
import Mathlib

namespace Marketplace

/-- A small model of decoded JSON values, sufficient for the manifests,
slice payloads and upload messages used by the processor. -/
inductive Json where
  | null : Json
  | str (s : String) : Json
  | num (n : Int) : Json
  | arr (elts : List Json) : Json
  | obj (fields : List (String × Json)) : Json
deriving Repr

/-- Look up a key in a JSON object; `none` when the value is not an
object or the key is absent (Python `dict.get`). -/
def Json.lookup : Json → String → Option Json
  | .obj fields, key => fields.lookup key
  | _, _ => none

/-- Look up a key expecting a string value. -/
def Json.lookupStr (j : Json) (key : String) : Option String :=
  match j.lookup key with
  | some (.str s) => some s
  | _ => none

/-- Whether a JSON value is an object (a Python mapping: the only values
on which attribute access such as `.get` succeeds). -/
def Json.isObj : Json → Bool
  | .obj _ => true
  | _ => false

/-- Modelled from the spec: the `Report` lifecycle states
(`NEW, STARTED, DOWNLOADED, VALIDATED, VALIDATION_REPORTED,
FAILED_DOWNLOAD, FAILED_VALIDATION`). -/
inductive RState where
  | NEW | STARTED | DOWNLOADED | VALIDATED
  | VALIDATION_REPORTED | FAILED_DOWNLOAD | FAILED_VALIDATION
deriving DecidableEq, Repr

/-- Terminal states: `VALIDATION_REPORTED` and the two failure terminals. -/
def RState.terminal : RState → Bool
  | .VALIDATION_REPORTED => true
  | .FAILED_DOWNLOAD => true
  | .FAILED_VALIDATION => true
  | _ => false

/-- Retry eligibility policy of a record (spec data model). -/
inductive RetryType where
  | TIME | GIT_COMMIT
deriving DecidableEq, Repr

/-- Modelled from the spec: the persisted fields of a `Report` row used by
the work selector, the lifecycle state machine and archival. -/
structure Report where
  id : Nat
  account : String
  state : RState
  state_info : List RState
  retry_count : Nat
  retry_type : RetryType
  git_commit : String
  report_platform_id : Option String
  upload_ack_status : Option String
  ready_to_archive : Bool
  last_update_time : Nat
  request_id : Option String
  upload_srv_kafka_msg : Json
deriving Repr

/-- Confirmation status recorded after validation succeeds. -/
def SUCCESS_CONFIRM_STATUS : String := "success"

/-- Confirmation status recorded after validation fails. -/
def FAILURE_CONFIRM_STATUS : String := "failure"

/-- Modelled from the spec: the fixed retry limit (4). -/
def RETRIES_ALLOWED : Nat := 4

/-- Modelled from the spec: per-state retry backoff in minutes — longer
for download retries (`STARTED`/`DOWNLOADED`) than for validation
retries (`VALIDATED`); `NEW` records are immediately eligible. -/
def backoff : RState → Nat
  | .NEW => 0
  | .STARTED => 240
  | .DOWNLOADED => 240
  | .VALIDATED => 120
  | _ => 0

/-- Bucket 1 of the work selector: records in state `NEW`. -/
def isNew (r : Report) : Bool := r.state = RState.NEW

/-- Bucket 2 of the work selector: non-terminal `TIME`-retry records whose
backoff window has elapsed at `now`. -/
def timeEligible (now : Nat) (r : Report) : Bool :=
  !r.state.terminal && r.retry_type = RetryType.TIME
    && r.last_update_time + backoff r.state ≤ now

/-- Bucket 3 of the work selector: non-terminal `GIT_COMMIT`-retry records
recorded under a commit different from the running engine's. -/
def gitEligible (commit : String) (r : Report) : Bool :=
  !r.state.terminal && r.retry_type = RetryType.GIT_COMMIT
    && r.git_commit ≠ commit

/-- The work selector's eligibility predicate: the union of the three
selection buckets. -/
def eligible (now : Nat) (commit : String) (r : Report) : Bool :=
  isNew r || timeEligible now r || gitEligible commit r

/-- Record with the oldest `last_update_time` in a list (earlier rows win
ties), `none` on the empty list. -/
def oldestBy : List Report → Option Report
  | [] => none
  | r :: rs =>
    match oldestBy rs with
    | none => some r
    | some b => if r.last_update_time ≤ b.last_update_time then some r else some b

/-- Modelled from the spec: `assign_object` — selection order, first match
wins: (1) any `NEW` record, oldest first; (2) any non-terminal
`TIME`-retry record past its backoff, oldest first; (3) any non-terminal
`GIT_COMMIT`-retry record from a different commit, oldest first; `none`
when no record matches. -/
def assign_object (now : Nat) (commit : String) (store : List Report) : Option Report :=
  match oldestBy (store.filter isNew) with
  | some r => some r
  | none =>
    match oldestBy (store.filter (timeEligible now)) with
    | some r => some r
    | none => oldestBy (store.filter (gitEligible commit))

/-- Modelled from the spec: `calculate_queued_objects` — counts all `NEW`
records, plus `TIME`-retry records older than backoff, plus
`GIT_COMMIT`-retry records whose commit differs from the current one
(the retry buckets exclude `NEW` records, which the first count covers). -/
def calculate_queued_objects (now : Nat) (commit : String) (store : List Report) : Nat :=
  (store.filter isNew).length
    + (store.filter (fun r => !isNew r && timeEligible now r)).length
    + (store.filter (fun r => !isNew r && gitEligible commit r)).length

/-- Modelled from the spec: `determine_retry(failure_state, current_state)`
— increments `retry_count`; if the new count exceeds the limit,
force-transitions to `failure_state` and sets `ready_to_archive`;
otherwise keeps `current_state` and persists the incremented count.  The
resulting state is appended to `state_info` (the `update_object_state`
contract). -/
def determine_retry (failure_state current_state : RState) (r : Report) : Report :=
  if r.retry_count + 1 > RETRIES_ALLOWED then
    { r with
        state := failure_state
        state_info := r.state_info ++ [failure_state]
        retry_count := r.retry_count + 1
        ready_to_archive := true }
  else
    { r with
        state := current_state
        state_info := r.state_info ++ [current_state]
        retry_count := r.retry_count + 1 }

/-- Modelled from the spec: the `ReportSlice` states
(`NEW, PENDING, VALIDATED, FAILED_VALIDATION`). -/
inductive SState where
  | NEW | PENDING | VALIDATED | FAILED_VALIDATION
deriving DecidableEq, Repr

/-- Modelled from the spec: the persisted fields of a `ReportSlice` row. -/
structure ReportSlice where
  report_id : Nat
  report_slice_id : String
  account : String
  state : SState
  state_info : List SState
  retry_count : Nat
  report_json : Json
  ready_to_archive : Bool
deriving Repr

/-- A member of the uploaded tar archive: its name and its decoded JSON
payload, `none` when the bytes fail to decode as text/JSON. -/
structure Member where
  name : String
  content : Option Json
deriving Repr

/-- Error class of the extraction sub-protocol: `FailExtractException`
(fatal) versus `RetryExtractException` (retryable). -/
inductive ExtractError where
  | fatal | retry
deriving DecidableEq, Repr

/-- Whether a member name carries the `.json` extension. -/
def hasJsonExt (n : String) : Bool :=
  n.data.reverse.take 5 = ".json".data.reverse

/-- Slice payload members: every `.json` member other than the manifest. -/
def isSliceFile (m : Member) : Bool :=
  hasJsonExt m.name && m.name ≠ "metadata.json"

/-- The slice payload members of an archive, in archive order. -/
def sliceFiles (archive : List Member) : List Member :=
  archive.filter isSliceFile

/-- The manifest member: the member literally named `metadata.json`. -/
def findManifest (archive : List Member) : Option Member :=
  archive.find? (fun m => m.name == "metadata.json")

/-- Basename of a slice file: its name with the `.json` extension removed. -/
def basename (n : String) : String := n.dropRight 5

/-- The keys of the manifest's `report_slices` mapping (empty when the
field is absent or not a mapping). -/
def reportSliceKeys (manifest : Json) : List String :=
  match manifest.lookup "report_slices" with
  | some (.obj kvs) => kvs.map (fun kv => kv.1)
  | _ => []

/-- Modelled from the spec (§6 archive format): the manifest must carry
`report_id` and `source` (only `source_metadata` is optional); the
`invalid_metadata` unit test shows a manifest without `source` is fatal. -/
def manifestFieldsOk (manifest : Json) : Bool :=
  (manifest.lookup "report_id").isSome && (manifest.lookup "source").isSome

/-- The summary returned by extraction and used to populate the parent
`Report`. -/
structure Summary where
  report_platform_id : Json
  source : Json
  source_metadata : Option Json
deriving Repr

/-- Summary built from a decoded manifest: `report_platform_id` is the
manifest's `report_id`, `source` its `source`, and `source_metadata` is
carried over only when present. -/
def mkSummary (manifest : Json) : Summary :=
  { report_platform_id := (manifest.lookup "report_id").getD Json.null
    source := (manifest.lookup "source").getD Json.null
    source_metadata := manifest.lookup "source_metadata" }

/-- A freshly created slice row: state `NEW`. -/
def mkNewSlice (account : String) (owner : Nat) (sid : String) (j : Json) : ReportSlice :=
  { report_id := owner
    report_slice_id := sid
    account := account
    state := .NEW
    state_info := [.NEW]
    retry_count := 0
    report_json := j
    ready_to_archive := false }

/-- Modelled from the spec and the extraction unit tests: walk the slice
payload members in archive order.  A member whose bytes do not decode is
fatal (a `ValueError`, per the `slice_fail` test); a member that decodes
to a non-mapping is retryable (a generic exception, per the
`invalid_json` test); a mapping whose `report_slice_id` is among the
manifest's `report_slices` keys yields a new slice row, any other
mapping is skipped silently. -/
def processSliceFiles (keys : List String) (account : String) (owner : Nat) :
    List Member → Except ExtractError (List ReportSlice)
  | [] => .ok []
  | f :: fs =>
    match f.content with
    | none => .error .fatal
    | some j =>
      if j.isObj then
        match processSliceFiles keys account owner fs with
        | .error e => .error e
        | .ok rest =>
          match j.lookupStr "report_slice_id" with
          | some sid =>
            if keys.contains sid then .ok (mkNewSlice account owner sid j :: rest)
            else .ok rest
          | none => .ok rest
      else .error .retry

/-- Modelled from the spec: `_extract_and_create_slices` — fatal when the
manifest member is absent, there are no slice payload members, the
manifest fails to decode, its required fields are missing, its
`report_slices` mapping is empty or does not intersect the basenames of
the slice files present, or zero slices end up created; slice payload
errors are classified by `processSliceFiles`; on success returns the
summary and the created slice rows. -/
def extract_and_create_slices (account : String) (owner : Nat) (archive : List Member) :
    Except ExtractError (Summary × List ReportSlice) :=
  match findManifest archive with
  | none => .error .fatal
  | some mf =>
    let files := sliceFiles archive
    if files.isEmpty then .error .fatal
    else
      match mf.content with
      | none => .error .fatal
      | some manifest =>
        if !manifestFieldsOk manifest then .error .fatal
        else
          let keys := reportSliceKeys manifest
          if keys.isEmpty then .error .fatal
          else if files.all (fun f => !keys.contains (basename f.name)) then .error .fatal
          else
            match processSliceFiles keys account owner files with
            | .error e => .error e
            | .ok slices =>
              if slices.isEmpty then .error .fatal
              else .ok (mkSummary manifest, slices)

/-- Error raised per slice by structural validation. -/
inductive MKTError where
  | reportException
deriving DecidableEq, Repr

/-- Modelled from the spec: `_validate_report_details` — a slice JSON is
valid only if it contains a non-empty `report_slice_id`; absence raises
a validation exception for that slice. -/
def validate_report_details (report_json : Json) : Except MKTError Bool :=
  match report_json.lookupStr "report_slice_id" with
  | some sid => if sid.isEmpty then .error .reportException else .ok true
  | none => .error .reportException

/-- Scoring of one slice during validation: `VALIDATED` on success, and
`FAILED_VALIDATION` when validation returns false or raises (the
exception is caught per slice and never aborts the siblings). -/
def scoreSlice (s : ReportSlice) : ReportSlice :=
  match validate_report_details s.report_json with
  | .ok true => { s with state := .VALIDATED, state_info := s.state_info ++ [.VALIDATED] }
  | _ => { s with state := .FAILED_VALIDATION, state_info := s.state_info ++ [.FAILED_VALIDATION] }

/-- Modelled from the spec: `transition_to_validated` — marks each slice
`VALIDATED` or `FAILED_VALIDATION` (a validation exception is caught and
scored as failed), sets the parent's `upload_ack_status` to success if
at least one slice validated and to failure otherwise, and advances the
parent to `VALIDATED` unconditionally, without touching `retry_count`. -/
def transition_to_validated (r : Report) (slices : List ReportSlice) :
    Report × List ReportSlice :=
  let validated := slices.map scoreSlice
  let anyValid := validated.any (fun s => s.state = SState.VALIDATED)
  let status := if anyValid then SUCCESS_CONFIRM_STATUS else FAILURE_CONFIRM_STATUS
  ({ r with
      state := .VALIDATED
      state_info := r.state_info ++ [RState.VALIDATED]
      upload_ack_status := some status }, validated)

/-- Terminal snapshot of a `Report`, with the archival timestamp. -/
structure ReportArchive where
  report_id : Nat
  account : String
  state : RState
  state_info : List RState
  retry_count : Nat
  retry_type : RetryType
  git_commit : String
  report_platform_id : Option String
  upload_ack_status : Option String
  ready_to_archive : Bool
  last_update_time : Nat
  processing_end_time : Option Nat
deriving Repr

/-- The persistence store: live reports and slices plus archive tables. -/
structure Store where
  reports : List Report
  slices : List ReportSlice
  archives : List ReportArchive
  slice_archives : List ReportSlice
deriving Repr

/-- The archive row copied from a live `Report`, stamped with
`processing_end_time = now`. -/
def toArchive (now : Nat) (r : Report) : ReportArchive :=
  { report_id := r.id
    account := r.account
    state := r.state
    state_info := r.state_info
    retry_count := r.retry_count
    retry_type := r.retry_type
    git_commit := r.git_commit
    report_platform_id := r.report_platform_id
    upload_ack_status := r.upload_ack_status
    ready_to_archive := r.ready_to_archive
    last_update_time := r.last_update_time
    processing_end_time := some now }

/-- Modelled from the spec: `archive_report_and_slices` — a no-op unless
`ready_to_archive`; otherwise copies the `Report` (and its owned slices)
into the archive tables with `processing_end_time = now` and deletes the
live rows. -/
def archive_report_and_slices (now : Nat) (r : Report) (store : Store) : Store :=
  if r.ready_to_archive then
    { reports := store.reports.filter (fun x => x.id ≠ r.id)
      slices := store.slices.filter (fun s => s.report_id ≠ r.id)
      archives := store.archives ++ [toArchive now r]
      slice_archives := store.slice_archives ++ store.slices.filter (fun s => s.report_id = r.id) }
  else store

/-- Field updates applied to a slice by `update_slice_state`. -/
structure SliceOptions where
  state : Option SState
  retry : Bool
deriving Repr

/-- Error raised when the options mapping lacks a required key. -/
inductive UpdateError where
  | keyError
deriving DecidableEq, Repr

/-- Modelled from the spec (`update_object_state` contract) and the
`update_slice_exception` unit test: the update requires a `state` entry
in the options; without one it raises a key error before touching the
row; with one it applies the state (appending it to `state_info`) and
the optional retry increment. -/
def update_slice_state_exec (options : SliceOptions) (s : ReportSlice) :
    Except UpdateError ReportSlice :=
  match options.state with
  | none => .error .keyError
  | some st =>
    .ok { s with
            state := st
            state_info := s.state_info ++ [st]
            retry_count := if options.retry then s.retry_count + 1 else s.retry_count }

/-- `update_slice_state` catches the update error internally and leaves
the row unchanged in that case, never propagating an exception. -/
def update_slice_state (options : SliceOptions) (s : ReportSlice) : ReportSlice :=
  match update_slice_state_exec options s with
  | .ok s' => s'
  | .error _ => s

/-- Modelled from the spec and the `save_and_ack` unit test: the account
of an upload message, read from `rh_account` (or `account`); an absent
or empty value counts as missing. -/
def accountOf (msg : Json) : Option String :=
  match msg.lookupStr "rh_account" with
  | some s => if s.isEmpty then none else some s
  | none =>
    match msg.lookupStr "account" with
    | some s => if s.isEmpty then none else some s
    | none => none

/-- The `Report` row persisted by the consumer for a decoded message:
state `NEW`, `request_id` extracted when present. -/
def newReportFromMsg (msg : Json) (acct : String) (now nid : Nat) : Report :=
  { id := nid
    account := acct
    state := .NEW
    state_info := [.NEW]
    retry_count := 0
    retry_type := .TIME
    git_commit := ""
    report_platform_id := none
    upload_ack_status := none
    ready_to_archive := false
    last_update_time := now
    request_id := msg.lookupStr "request_id"
    upload_srv_kafka_msg := msg }

/-- Modelled from the spec and the `save_and_ack` unit test:
`save_message_and_ack` on an already-decoded message — a message without
an account raises internally, is caught, and is acknowledged without
persisting anything; otherwise a `Report` in state `NEW` is persisted
(with `request_id` empty when absent) and the message acknowledged.
Returns the resulting report table and whether the offset was
acknowledged. -/
def save_message_and_ack (now nid : Nat) (msg : Json) (reports : List Report) :
    List Report × Bool :=
  match accountOf msg with
  | none => (reports, true)
  | some acct => (reports ++ [newReportFromMsg msg acct now nid], true)

/-- The slice row a slice payload member contributes, if any: present
exactly when the member decodes to a mapping whose `report_slice_id` is
among the manifest keys. -/
def sliceOf (keys : List String) (account : String) (owner : Nat) (f : Member) :
    Option ReportSlice :=
  match f.content with
  | some j =>
    match j.lookupStr "report_slice_id" with
    | some sid => if keys.contains sid then some (mkNewSlice account owner sid j) else none
    | none => none
  | none => none

/-- A concrete report row for witnesses, mirroring the unit-test setup. -/
def mkTestReport (id : Nat) (st : RState) (rt : RetryType) (gc : String) (lut rc : Nat) :
    Report :=
  { id := id
    account := "1234"
    state := st
    state_info := [RState.NEW]
    retry_count := rc
    retry_type := rt
    git_commit := gc
    report_platform_id := none
    upload_ack_status := none
    ready_to_archive := false
    last_update_time := lut
    request_id := none
    upload_srv_kafka_msg := Json.null }

/-- A concrete slice row for witnesses, mirroring the unit-test setup. -/
def mkTestSlice : ReportSlice :=
  { report_id := 1
    report_slice_id := "slice-1"
    account := "13423"
    state := SState.PENDING
    state_info := [SState.NEW]
    retry_count := 0
    report_json := Json.obj [("report_id", Json.num 1)]
    ready_to_archive := true }

/-- A fresh `NEW` report, younger than the retry-eligible one below. -/
def cRepNew : Report := mkTestReport 1 RState.NEW RetryType.TIME "c0" 100 0

/-- An older `STARTED` report on a `TIME` retry, past its backoff. -/
def cRepOldStarted : Report := mkTestReport 2 RState.STARTED RetryType.TIME "c0" 0 1

/-- A `DOWNLOADED` report on a `GIT_COMMIT` retry from an older commit. -/
def cRepGit : Report := mkTestReport 3 RState.DOWNLOADED RetryType.GIT_COMMIT "old" 50 1

/-- A manifest with `report_id`, `source` and one declared slice id. -/
def cManifest : Json :=
  Json.obj [("report_id", Json.str "X"), ("source", Json.str "S"),
    ("report_slices", Json.obj [("A", Json.obj [])])]

/-- A slice payload whose internal id matches the manifest key. -/
def cSliceGood : Json := Json.obj [("report_slice_id", Json.str "A")]

/-- A slice payload whose internal id does not match any manifest key,
though its file's basename does. -/
def cSliceMismatch : Json := Json.obj [("report_slice_id", Json.str "B")]

/-- A manifest whose `report_slices` mapping is empty. -/
def cManifestEmptySlices : Json :=
  Json.obj [("report_id", Json.num 1), ("source", Json.str "S"),
    ("report_slices", Json.obj [])]

/-- Claim C1: `determine_retry` increments `retry_count` by exactly one per
attempt; while the incremented count does not exceed the limit of 4 the
state (and `ready_to_archive`) are unchanged; once the incremented count
exceeds the limit, the state becomes the designated failure terminal and
`ready_to_archive` becomes true, regardless of retry type. -/
theorem determine_retry_correct (failure_state : RState) (r : Report) :
    (determine_retry failure_state r.state r).retry_count = r.retry_count + 1
    ∧ (r.retry_count + 1 ≤ RETRIES_ALLOWED →
        (determine_retry failure_state r.state r).state = r.state
        ∧ (determine_retry failure_state r.state r).ready_to_archive = r.ready_to_archive)
    ∧ (r.retry_count + 1 > RETRIES_ALLOWED →
        (determine_retry failure_state r.state r).state = failure_state
        ∧ (determine_retry failure_state r.state r).ready_to_archive = true) := by
  unfold determine_retry
  by_cases h : r.retry_count + 1 > RETRIES_ALLOWED
  · rw [if_pos h]
    exact ⟨rfl, fun hle => absurd h (by omega), fun _ => ⟨rfl, rfl⟩⟩
  · rw [if_neg h]
    exact ⟨rfl, fun _ => ⟨rfl, rfl⟩, fun hgt => absurd hgt h⟩

/-- Witness for C1 at the unit test's input: a `STARTED` report with
`retry_count = 4` is forced to `FAILED_DOWNLOAD` with
`ready_to_archive = true`. -/
theorem determine_retry_correct_witness :
    (determine_retry RState.FAILED_DOWNLOAD
        (mkTestReport 1 RState.STARTED RetryType.TIME "c" 0 4).state
        (mkTestReport 1 RState.STARTED RetryType.TIME "c" 0 4)).state = RState.FAILED_DOWNLOAD
    ∧ (determine_retry RState.FAILED_DOWNLOAD
        (mkTestReport 1 RState.STARTED RetryType.TIME "c" 0 4).state
        (mkTestReport 1 RState.STARTED RetryType.TIME "c" 0 4)).ready_to_archive = true :=
  (determine_retry_correct RState.FAILED_DOWNLOAD
    (mkTestReport 1 RState.STARTED RetryType.TIME "c" 0 4)).2.2 (by decide)

/-- Claim C10: `update_slice_state` with an options mapping that has no
`state` entry propagates no exception (the key error stays internal) and
leaves the slice row unchanged. -/
theorem update_slice_state_no_state_key (options : SliceOptions) (s : ReportSlice)
    (h : options.state = none) :
    update_slice_state options s = s
    ∧ update_slice_state_exec options s = .error .keyError := by
  constructor <;> simp [update_slice_state, update_slice_state_exec, h]

/-- Witness for C10 at the unit test's input: a `PENDING` slice and empty
options. -/
theorem update_slice_state_no_state_key_witness :
    update_slice_state ⟨none, false⟩ mkTestSlice = mkTestSlice
    ∧ update_slice_state_exec ⟨none, false⟩ mkTestSlice = .error .keyError :=
  update_slice_state_no_state_key ⟨none, false⟩ mkTestSlice rfl

/-- Claim C8: `archive_report_and_slices` on a report with
`ready_to_archive = false` leaves the store untouched (the live row stays,
no archive row appears); with `ready_to_archive = true` it deletes the
live row and appends an archive row copying the report's persisted fields
with a non-null `processing_end_time`. -/
theorem archive_report_and_slices_correct (now : Nat) (r : Report) (store : Store) :
    (r.ready_to_archive = false → archive_report_and_slices now r store = store)
    ∧ (r.ready_to_archive = true →
        (archive_report_and_slices now r store).reports
            = store.reports.filter (fun x => x.id ≠ r.id)
        ∧ (archive_report_and_slices now r store).archives
            = store.archives ++ [toArchive now r]
        ∧ (toArchive now r).processing_end_time = some now
        ∧ (toArchive now r).report_id = r.id
        ∧ (toArchive now r).account = r.account
        ∧ (toArchive now r).state = r.state
        ∧ (toArchive now r).state_info = r.state_info
        ∧ (toArchive now r).upload_ack_status = r.upload_ack_status) := by
  constructor <;> intro h <;>
    simp [archive_report_and_slices, h, toArchive]

/-- Witness for C8 at the unit tests' inputs: a ready report is archived
with `processing_end_time = now` and removed; a not-ready report leaves
the store untouched. -/
theorem archive_report_and_slices_correct_witness :
    (archive_report_and_slices 7 (mkTestReport 1 RState.NEW RetryType.TIME "c" 0 0)
        ⟨[mkTestReport 1 RState.NEW RetryType.TIME "c" 0 0], [], [], []⟩
      = ⟨[mkTestReport 1 RState.NEW RetryType.TIME "c" 0 0], [], [], []⟩)
    ∧ ((archive_report_and_slices 7
          { mkTestReport 1 RState.NEW RetryType.TIME "c" 0 0 with ready_to_archive := true }
          ⟨[{ mkTestReport 1 RState.NEW RetryType.TIME "c" 0 0 with ready_to_archive := true }],
            [], [], []⟩).reports = []
      ∧ (toArchive 7
          { mkTestReport 1 RState.NEW RetryType.TIME "c" 0 0 with
              ready_to_archive := true }).processing_end_time = some 7) := by
  refine ⟨(archive_report_and_slices_correct 7 _ _).1 rfl, ?_, ?_⟩
  · have h := ((archive_report_and_slices_correct 7
      { mkTestReport 1 RState.NEW RetryType.TIME "c" 0 0 with ready_to_archive := true }
      ⟨[{ mkTestReport 1 RState.NEW RetryType.TIME "c" 0 0 with ready_to_archive := true }],
        [], [], []⟩).2 rfl).1
    rw [h]
    rfl
  · exact ((archive_report_and_slices_correct 7
      { mkTestReport 1 RState.NEW RetryType.TIME "c" 0 0 with ready_to_archive := true }
      ⟨[{ mkTestReport 1 RState.NEW RetryType.TIME "c" 0 0 with ready_to_archive := true }],
        [], [], []⟩).2 rfl).2.2.1

/-- A scored slice is `VALIDATED` exactly when its payload validated. -/
theorem scoreSlice_state (s : ReportSlice) :
    (scoreSlice s).state = SState.VALIDATED
      ↔ validate_report_details s.report_json = .ok true := by
  unfold scoreSlice
  cases h : validate_report_details s.report_json with
  | error e => simp
  | ok b => cases b <;> simp

/-- Claim C9: `transition_to_validated` advances the report to `VALIDATED`
unconditionally and never increments `retry_count`; every slice is scored
(a validation exception is caught per slice), and when no slice validates
— in particular when validation raises on each — the outcome is
`upload_ack_status = failure`; when some slice validates it is success. -/
theorem transition_to_validated_correct (r : Report) (slices : List ReportSlice) :
    (transition_to_validated r slices).1.state = RState.VALIDATED
    ∧ (transition_to_validated r slices).1.retry_count = r.retry_count
    ∧ (transition_to_validated r slices).2 = slices.map scoreSlice
    ∧ ((∀ s ∈ slices, validate_report_details s.report_json ≠ .ok true) →
        (transition_to_validated r slices).1.upload_ack_status
          = some FAILURE_CONFIRM_STATUS)
    ∧ ((∃ s ∈ slices, validate_report_details s.report_json = .ok true) →
        (transition_to_validated r slices).1.upload_ack_status
          = some SUCCESS_CONFIRM_STATUS) := by
  refine ⟨rfl, rfl, rfl, ?_, ?_⟩
  · intro hall
    have hany : (slices.map scoreSlice).any (fun s => s.state = SState.VALIDATED) = false := by
      simp only [List.any_map, List.any_eq_false, Function.comp]
      intro s hs
      simp only [decide_eq_true_eq, scoreSlice_state]
      exact hall s hs
    unfold transition_to_validated
    simp [hany]
  · intro ⟨s, hs, hv⟩
    have hany : (slices.map scoreSlice).any (fun s => s.state = SState.VALIDATED) = true := by
      simp only [List.any_map, List.any_eq_true, Function.comp]
      exact ⟨s, hs, by simp [decide_eq_true_eq, scoreSlice_state, hv]⟩
    unfold transition_to_validated
    simp [hany]

/-- Witness for C9 at the unit test's input: a `DOWNLOADED` report with one
slice whose payload lacks `report_slice_id` ends `VALIDATED`, with
failure status and `retry_count` still 0. -/
theorem transition_to_validated_correct_witness :
    (transition_to_validated (mkTestReport 1 RState.DOWNLOADED RetryType.TIME "c" 0 0)
        [mkTestSlice]).1.state = RState.VALIDATED
    ∧ (transition_to_validated (mkTestReport 1 RState.DOWNLOADED RetryType.TIME "c" 0 0)
        [mkTestSlice]).1.retry_count = 0
    ∧ (transition_to_validated (mkTestReport 1 RState.DOWNLOADED RetryType.TIME "c" 0 0)
        [mkTestSlice]).1.upload_ack_status = some FAILURE_CONFIRM_STATUS := by
  obtain ⟨h1, h2, _, h4, _⟩ :=
    transition_to_validated_correct
      (mkTestReport 1 RState.DOWNLOADED RetryType.TIME "c" 0 0) [mkTestSlice]
  refine ⟨h1, h2.trans rfl, h4 ?_⟩
  intro s hs
  rw [List.mem_singleton] at hs
  subst hs
  rw [show validate_report_details mkTestSlice.report_json
        = .error .reportException from rfl]
  simp

/-- Counterexample to claim C6 as stated: the decoded message
`{"foo": "bar"}` lacks the account field, and `save_message_and_ack`
persists no `Report` at all for it (while still acknowledging), rather
than creating one with empty fields. -/
theorem save_message_and_ack_counterexample :
    (save_message_and_ack 0 1 (Json.obj [("foo", Json.str "bar")]) []).1 = []
    ∧ (save_message_and_ack 0 1 (Json.obj [("foo", Json.str "bar")]) []).2 = true :=
  ⟨rfl, rfl⟩

/-- Claim C6 (amended): `save_message_and_ack` on a decoded message with an
account field persists a new `Report` in state `NEW` (with `request_id`
left empty when the message lacks it) and acknowledges; on a decoded
message without an account field it persists nothing, raises nothing to
its caller, and still acknowledges. -/
theorem save_message_and_ack_correct (now nid : Nat) (msg : Json) (reports : List Report) :
    (accountOf msg = none → save_message_and_ack now nid msg reports = (reports, true))
    ∧ (∀ a, accountOf msg = some a →
        save_message_and_ack now nid msg reports
          = (reports ++ [newReportFromMsg msg a now nid], true)
        ∧ (newReportFromMsg msg a now nid).state = RState.NEW
        ∧ (newReportFromMsg msg a now nid).account = a
        ∧ (newReportFromMsg msg a now nid).request_id = msg.lookupStr "request_id"
        ∧ (newReportFromMsg msg a now nid).upload_srv_kafka_msg = msg) := by
  constructor
  · intro h
    unfold save_message_and_ack
    rw [h]
  · intro a h
    unfold save_message_and_ack
    rw [h]
    exact ⟨rfl, rfl, rfl, rfl, rfl⟩

/-- Witness for C6 (amended) at the unit test's input: the message
`{"rh_account": "1112"}` (no `request_id`) yields exactly one `NEW`
report with an empty `request_id`. -/
theorem save_message_and_ack_correct_witness :
    save_message_and_ack 0 1 (Json.obj [("rh_account", Json.str "1112")]) []
      = ([newReportFromMsg (Json.obj [("rh_account", Json.str "1112")]) "1112" 0 1], true)
    ∧ (newReportFromMsg (Json.obj [("rh_account", Json.str "1112")]) "1112" 0 1).state
        = RState.NEW
    ∧ (newReportFromMsg (Json.obj [("rh_account", Json.str "1112")]) "1112" 0 1).request_id
        = none := by
  obtain ⟨h1, h2, _, h4, _⟩ :=
    (save_message_and_ack_correct 0 1 (Json.obj [("rh_account", Json.str "1112")]) []).2
      "1112" rfl
  exact ⟨by simpa using h1, h2, h4.trans rfl⟩

/-- A time-eligible record is on a `TIME` retry. -/
theorem timeEligible_retry (now : Nat) (r : Report) (h : timeEligible now r = true) :
    r.retry_type = RetryType.TIME := by
  simp only [timeEligible, Bool.and_eq_true, decide_eq_true_eq] at h
  exact h.1.2

/-- A commit-eligible record is on a `GIT_COMMIT` retry. -/
theorem gitEligible_retry (commit : String) (r : Report) (h : gitEligible commit r = true) :
    r.retry_type = RetryType.GIT_COMMIT := by
  simp only [gitEligible, Bool.and_eq_true, decide_eq_true_eq] at h
  exact h.1.2

/-- Claim C7: `calculate_queued_objects` returns exactly the number of
records satisfying `assign_object`'s eligibility predicate — all `NEW`
records, plus `TIME`-retry records past their backoff, plus
`GIT_COMMIT`-retry records recorded under a different commit, with the
too-young and same-commit records excluded. -/
theorem calculate_queued_objects_correct (now : Nat) (commit : String)
    (store : List Report) :
    calculate_queued_objects now commit store
      = (store.filter (eligible now commit)).length := by
  induction store with
  | nil => rfl
  | cons a t ih =>
    unfold calculate_queued_objects at ih ⊢
    cases hn : isNew a <;> cases ht : timeEligible now a <;> cases hg : gitEligible commit a
    all_goals
      try (have h1 := timeEligible_retry now a ht
           have h2 := gitEligible_retry commit a hg
           rw [h1] at h2
           exact absurd h2 (by decide))
    all_goals simp [List.filter_cons, eligible, hn, ht, hg]
    all_goals omega

/-- `oldestBy` never yields nothing on a populated table. -/
theorem oldestBy_ne_none (a : Report) (t : List Report) : oldestBy (a :: t) ≠ none := by
  simp only [oldestBy]
  cases ho : oldestBy t with
  | none => exact fun h => Option.noConfusion h
  | some b =>
    dsimp only
    split <;> exact fun h => Option.noConfusion h

/-- `oldestBy` yields nothing exactly on the empty table. -/
theorem oldestBy_eq_none {l : List Report} : oldestBy l = none ↔ l = [] := by
  cases l with
  | nil => simp [oldestBy]
  | cons a t =>
    exact Iff.intro (fun h => absurd h (oldestBy_ne_none a t)) (fun h => by cases h)

/-- `oldestBy` selects a member of the table. -/
theorem oldestBy_mem : ∀ {l : List Report} {r : Report}, oldestBy l = some r → r ∈ l := by
  intro l
  induction l with
  | nil => intro r h; cases h
  | cons a t ih =>
    intro r h
    simp only [oldestBy] at h
    cases ho : oldestBy t with
    | none =>
      rw [ho] at h
      cases h
      exact List.mem_cons_self _ _
    | some b =>
      rw [ho] at h
      dsimp only at h
      by_cases hle : a.last_update_time ≤ b.last_update_time
      · rw [if_pos hle] at h
        cases h
        exact List.mem_cons_self _ _
      · rw [if_neg hle] at h
        cases h
        exact List.mem_cons_of_mem _ (ih ho)

/-- `oldestBy` selects a row whose `last_update_time` is minimal. -/
theorem oldestBy_min : ∀ {l : List Report} {r : Report}, oldestBy l = some r →
    ∀ b ∈ l, r.last_update_time ≤ b.last_update_time := by
  intro l
  induction l with
  | nil => intro r h; cases h
  | cons a t ih =>
    intro r h c hc
    simp only [oldestBy] at h
    cases ho : oldestBy t with
    | none =>
      rw [ho] at h
      cases h
      have ht : t = [] := oldestBy_eq_none.mp ho
      subst ht
      rw [List.mem_singleton] at hc
      subst hc
      exact le_refl _
    | some b =>
      rw [ho] at h
      dsimp only at h
      by_cases hle : a.last_update_time ≤ b.last_update_time
      · rw [if_pos hle] at h
        cases h
        rcases List.mem_cons.mp hc with hc | hc
        · subst hc; exact le_refl _
        · exact le_trans hle (ih ho _ hc)
      · rw [if_neg hle] at h
        cases h
        rcases List.mem_cons.mp hc with hc | hc
        · subst hc; exact le_of_lt (lt_of_not_le hle)
        · exact ih ho _ hc

/-- A `NEW`-bucket record is in state `NEW`. -/
theorem isNew_state {r : Report} (h : isNew r = true) : r.state = RState.NEW := by
  simpa [isNew] using h

/-- Unfolding of the `TIME` bucket predicate. -/
theorem timeEligible_spec {now : Nat} {r : Report} (h : timeEligible now r = true) :
    r.state.terminal = false ∧ r.retry_type = RetryType.TIME
      ∧ r.last_update_time + backoff r.state ≤ now := by
  simp only [timeEligible, Bool.and_eq_true, Bool.not_eq_true', decide_eq_true_eq] at h
  exact ⟨h.1.1, h.1.2, h.2⟩

/-- Unfolding of the `GIT_COMMIT` bucket predicate. -/
theorem gitEligible_spec {commit : String} {r : Report} (h : gitEligible commit r = true) :
    r.state.terminal = false ∧ r.retry_type = RetryType.GIT_COMMIT
      ∧ r.git_commit ≠ commit := by
  simp only [gitEligible, Bool.and_eq_true, Bool.not_eq_true', decide_eq_true_eq] at h
  exact ⟨h.1.1, h.1.2, h.2⟩

/-- Counterexample to claim C2 as stated: with a fresh `NEW` record and a
strictly older retry-eligible `STARTED` record both in the store,
`assign_object` selects the `NEW` record, not the eligible record with
the oldest `last_update_time`. -/
theorem assign_object_oldest_counterexample :
    assign_object 1000 "run" [cRepNew, cRepOldStarted] = some cRepNew
    ∧ eligible 1000 "run" cRepOldStarted = true
    ∧ cRepOldStarted.last_update_time < cRepNew.last_update_time
    ∧ cRepOldStarted.id ≠ cRepNew.id :=
  ⟨rfl, rfl, by decide, by decide⟩

/-- Claim C2 (amended): `assign_object` only returns records satisfying the
eligibility predicate — never a terminal record, never a non-`NEW`
`TIME`-retry record younger than its backoff, never a non-`NEW`
`GIT_COMMIT`-retry record recorded under the running commit; it selects
the record with the oldest `last_update_time` within the first non-empty
bucket, in the order `NEW`, then `TIME`-eligible, then
`GIT_COMMIT`-eligible (not the oldest overall), and it returns nothing
exactly when no record is eligible. -/
theorem assign_object_correct (now : Nat) (commit : String) (store : List Report) :
    (∀ r, assign_object now commit store = some r →
        r ∈ store
        ∧ eligible now commit r = true
        ∧ r.state.terminal = false
        ∧ (r.state ≠ RState.NEW → r.retry_type = RetryType.TIME →
            r.last_update_time + backoff r.state ≤ now)
        ∧ (r.state ≠ RState.NEW → r.retry_type = RetryType.GIT_COMMIT →
            r.git_commit ≠ commit))
    ∧ (store.filter isNew ≠ [] →
        ∃ r, assign_object now commit store = some r ∧ isNew r = true
          ∧ ∀ b ∈ store, isNew b = true → r.last_update_time ≤ b.last_update_time)
    ∧ (∀ r, assign_object now commit store = some r → isNew r = false →
        store.filter isNew = []
        ∧ (timeEligible now r = false → store.filter (timeEligible now) = []))
    ∧ (∀ r, assign_object now commit store = some r → isNew r = false →
        timeEligible now r = true →
        ∀ b ∈ store, timeEligible now b = true →
          r.last_update_time ≤ b.last_update_time)
    ∧ (∀ r, assign_object now commit store = some r → isNew r = false →
        gitEligible commit r = true →
        ∀ b ∈ store, gitEligible commit b = true →
          r.last_update_time ≤ b.last_update_time)
    ∧ (assign_object now commit store = none
        ↔ store.filter (eligible now commit) = []) := by
  have hdis : ∀ r, assign_object now commit store = some r →
      oldestBy (store.filter isNew) = some r
      ∨ (store.filter isNew = []
          ∧ oldestBy (store.filter (timeEligible now)) = some r)
      ∨ (store.filter isNew = [] ∧ store.filter (timeEligible now) = []
          ∧ oldestBy (store.filter (gitEligible commit)) = some r) := by
    intro r h
    unfold assign_object at h
    cases h1 : oldestBy (store.filter isNew) with
    | some x =>
      rw [h1] at h
      dsimp only at h
      cases h
      exact Or.inl rfl
    | none =>
      rw [h1] at h
      dsimp only at h
      cases h2 : oldestBy (store.filter (timeEligible now)) with
      | some y =>
        rw [h2] at h
        dsimp only at h
        cases h
        exact Or.inr (Or.inl ⟨oldestBy_eq_none.mp h1, rfl⟩)
      | none =>
        rw [h2] at h
        dsimp only at h
        exact Or.inr (Or.inr ⟨oldestBy_eq_none.mp h1, oldestBy_eq_none.mp h2, h⟩)
  refine ⟨?_, ?_, ?_, ?_, ?_, ?_⟩
  · intro r h
    rcases hdis r h with hnew | ⟨_, htim⟩ | ⟨_, _, hgit⟩
    · have hm := List.mem_filter.mp (oldestBy_mem hnew)
      have hst := isNew_state hm.2
      refine ⟨hm.1, by simp [eligible, hm.2], by rw [hst]; rfl, ?_, ?_⟩
      · intro hne _
        exact absurd hst hne
      · intro hne _
        exact absurd hst hne
    · have hm := List.mem_filter.mp (oldestBy_mem htim)
      obtain ⟨hterm, hrt, hle⟩ := timeEligible_spec hm.2
      refine ⟨hm.1, by simp [eligible, hm.2], hterm, fun _ _ => hle, ?_⟩
      intro _ hgitrt _
      exact absurd (hrt.symm.trans hgitrt) (by decide)
    · have hm := List.mem_filter.mp (oldestBy_mem hgit)
      obtain ⟨hterm, hrt, hneq⟩ := gitEligible_spec hm.2
      refine ⟨hm.1, by simp [eligible, hm.2], hterm, ?_, fun _ _ => hneq⟩
      intro _ htimrt
      exact absurd (hrt.symm.trans htimrt) (by decide)
  · intro hne
    cases h1 : oldestBy (store.filter isNew) with
    | none => exact absurd (oldestBy_eq_none.mp h1) hne
    | some x =>
      refine ⟨x, ?_, (List.mem_filter.mp (oldestBy_mem h1)).2, ?_⟩
      · unfold assign_object
        rw [h1]
      · intro b hb hbn
        exact oldestBy_min h1 _ (List.mem_filter.mpr ⟨hb, hbn⟩)
  · intro r h hnotnew
    rcases hdis r h with hnew | ⟨hempty, htim⟩ | ⟨hempty, htempty, _⟩
    · exact absurd (List.mem_filter.mp (oldestBy_mem hnew)).2 (by simp [hnotnew])
    · refine ⟨hempty, fun htf => ?_⟩
      exact absurd (List.mem_filter.mp (oldestBy_mem htim)).2 (by simp [htf])
    · exact ⟨hempty, fun _ => htempty⟩
  · intro r h hnotnew htime b hb hbt
    rcases hdis r h with hnew | ⟨_, htim⟩ | ⟨_, _, hgit⟩
    · exact absurd (List.mem_filter.mp (oldestBy_mem hnew)).2 (by simp [hnotnew])
    · exact oldestBy_min htim _ (List.mem_filter.mpr ⟨hb, hbt⟩)
    · have hg := (List.mem_filter.mp (oldestBy_mem hgit)).2
      exact absurd ((timeEligible_retry now r htime).symm.trans (gitEligible_retry commit r hg))
        (by decide)
  · intro r h hnotnew hgite b hb hbg
    rcases hdis r h with hnew | ⟨_, htim⟩ | ⟨_, _, hgit⟩
    · exact absurd (List.mem_filter.mp (oldestBy_mem hnew)).2 (by simp [hnotnew])
    · have ht := (List.mem_filter.mp (oldestBy_mem htim)).2
      exact absurd ((timeEligible_retry now r ht).symm.trans (gitEligible_retry commit r hgite))
        (by decide)
    · exact oldestBy_min hgit _ (List.mem_filter.mpr ⟨hb, hbg⟩)
  · constructor
    · intro h
      unfold assign_object at h
      cases h1 : oldestBy (store.filter isNew) with
      | some x =>
        rw [h1] at h
        dsimp only at h
        cases h
      | none =>
        rw [h1] at h
        dsimp only at h
        cases h2 : oldestBy (store.filter (timeEligible now)) with
        | some y =>
          rw [h2] at h
          dsimp only at h
          cases h
        | none =>
          rw [h2] at h
          dsimp only at h
          have g1 := oldestBy_eq_none.mp h1
          have g2 := oldestBy_eq_none.mp h2
          have g3 := oldestBy_eq_none.mp h
          rw [List.filter_eq_nil_iff] at g1 g2 g3 ⊢
          intro a ha hel
          have hel' : isNew a = true ∨ timeEligible now a = true
              ∨ gitEligible commit a = true := by
            simpa [eligible, or_assoc] using hel
          rcases hel' with hn | ht | hg
          · exact g1 a ha hn
          · exact g2 a ha ht
          · exact g3 a ha hg
    · intro hemp
      rw [List.filter_eq_nil_iff] at hemp
      have g1 : store.filter isNew = [] := by
        rw [List.filter_eq_nil_iff]
        intro a ha hn
        exact hemp a ha (by simp [eligible, hn])
      have g2 : store.filter (timeEligible now) = [] := by
        rw [List.filter_eq_nil_iff]
        intro a ha ht
        exact hemp a ha (by simp [eligible, ht])
      have g3 : store.filter (gitEligible commit) = [] := by
        rw [List.filter_eq_nil_iff]
        intro a ha hg
        exact hemp a ha (by simp [eligible, hg])
      unfold assign_object
      rw [g1, g2, g3]
      rfl

/-- Witness for C2 (amended): with the fresh `NEW` record present it is
selected (and is oldest within the `NEW` bucket); a lone `TIME`-eligible
record is oldest within the `TIME` bucket; a lone `GIT_COMMIT` record
from another commit is selected from the third bucket, oldest within it,
with both earlier buckets empty. -/
theorem assign_object_correct_witness :
    (∃ r, assign_object 1000 "run" [cRepNew, cRepOldStarted] = some r
      ∧ isNew r = true
      ∧ ∀ b ∈ [cRepNew, cRepOldStarted], isNew b = true →
          r.last_update_time ≤ b.last_update_time)
    ∧ (cRepGit ∈ [cRepGit] ∧ eligible 1000 "run" cRepGit = true
        ∧ cRepGit.state.terminal = false)
    ∧ ([cRepGit].filter isNew = []
        ∧ [cRepGit].filter (timeEligible 1000) = [])
    ∧ (∀ b ∈ [cRepOldStarted], timeEligible 1000 b = true →
        cRepOldStarted.last_update_time ≤ b.last_update_time)
    ∧ (∀ b ∈ [cRepGit], gitEligible "run" b = true →
        cRepGit.last_update_time ≤ b.last_update_time) := by
  refine ⟨?_, ?_, ?_, ?_, ?_⟩
  · exact (assign_object_correct 1000 "run" [cRepNew, cRepOldStarted]).2.1
      (by rw [show ([cRepNew, cRepOldStarted].filter isNew) = [cRepNew] from rfl]
          exact List.cons_ne_nil _ _)
  · obtain ⟨h1, h2, h3, _⟩ := (assign_object_correct 1000 "run" [cRepGit]).1 cRepGit rfl
    exact ⟨h1, h2, h3⟩
  · obtain ⟨h1, h2⟩ := (assign_object_correct 1000 "run" [cRepGit]).2.2.1 cRepGit rfl rfl
    exact ⟨h1, h2 rfl⟩
  · exact (assign_object_correct 1000 "run" [cRepOldStarted]).2.2.2.1
      cRepOldStarted rfl rfl rfl
  · exact (assign_object_correct 1000 "run" [cRepGit]).2.2.2.2.1
      cRepGit rfl rfl rfl

/-- On slice files that all decode to mappings, the extraction walk
succeeds and creates exactly the slices contributed by `sliceOf`. -/
theorem processSliceFiles_all_obj (keys : List String) (acct : String) (owner : Nat) :
    ∀ (files : List Member), (∀ f ∈ files, ∃ kvs, f.content = some (Json.obj kvs)) →
      processSliceFiles keys acct owner files
        = .ok (files.filterMap (sliceOf keys acct owner)) := by
  intro files
  induction files with
  | nil => intro _; rfl
  | cons f fs ih =>
    intro h
    obtain ⟨kvs, hf⟩ := h f (List.mem_cons_self _ _)
    have hrest := ih (fun g hg => h g (List.mem_cons_of_mem _ hg))
    unfold processSliceFiles
    rw [hf]
    dsimp only
    rw [hrest]
    dsimp only
    cases hss : (Json.obj kvs).lookupStr "report_slice_id" with
    | none => simp [List.filterMap_cons, sliceOf, hf, hss, Json.isObj]
    | some sid =>
      by_cases hc : sid ∈ keys
      · simp [List.filterMap_cons, sliceOf, hf, hss, hc, Json.isObj]
      · simp [List.filterMap_cons, sliceOf, hf, hss, hc, Json.isObj]

/-- A walk error arising in a suffix propagates over a prefix of slice
files that all decode to mappings. -/
theorem processSliceFiles_append_error (keys : List String) (acct : String) (owner : Nat)
    (l : List Member) (e : ExtractError) :
    ∀ (pre : List Member), (∀ f ∈ pre, ∃ kvs, f.content = some (Json.obj kvs)) →
      processSliceFiles keys acct owner l = .error e →
      processSliceFiles keys acct owner (pre ++ l) = .error e := by
  intro pre
  induction pre with
  | nil => intro _ h; simpa using h
  | cons f fs ih =>
    intro h hl
    obtain ⟨kvs, hf⟩ := h f (List.mem_cons_self _ _)
    have htail := ih (fun g hg => h g (List.mem_cons_of_mem _ hg)) hl
    show processSliceFiles keys acct owner (f :: (fs ++ l)) = .error e
    unfold processSliceFiles
    rw [hf]
    dsimp only
    rw [htail]
    simp [Json.isObj]

/-- The manifest member is found at the head of the archive. -/
theorem findManifest_cons (c : Option Json) (rest : List Member) :
    findManifest (⟨"metadata.json", c⟩ :: rest) = some ⟨"metadata.json", c⟩ :=
  List.find?_cons_of_pos _ (by rfl)

/-- The slice files of a manifest-headed archive whose tail members are
all slice files. -/
theorem sliceFiles_cons (c : Option Json) (files : List Member)
    (hfiles : ∀ f ∈ files, isSliceFile f = true) :
    sliceFiles (⟨"metadata.json", c⟩ :: files) = files := by
  unfold sliceFiles
  rw [List.filter_cons_of_neg (fun hh => Bool.noConfusion hh)]
  exact List.filter_eq_self.mpr hfiles

/-- Reduction of extraction once the manifest decodes, its required fields
are present, its `report_slices` keys are non-empty and meet the slice
file basenames: the outcome is decided by the slice-file walk and the
zero-slices check. -/
theorem extract_good_manifest_eq (acct : String) (owner : Nat) (m : Json)
    (files : List Member)
    (hfiles : ∀ f ∈ files, isSliceFile f = true)
    (hne : files ≠ [])
    (hfields : manifestFieldsOk m = true)
    (hkeys : reportSliceKeys m ≠ [])
    (hinterAll : files.all
        (fun f => !(reportSliceKeys m).contains (basename f.name)) = false) :
    extract_and_create_slices acct owner (⟨"metadata.json", some m⟩ :: files)
      = match processSliceFiles (reportSliceKeys m) acct owner files with
        | .error e => .error e
        | .ok slices =>
          if slices.isEmpty then .error .fatal else .ok (mkSummary m, slices) := by
  unfold extract_and_create_slices
  rw [findManifest_cons]
  dsimp only
  rw [sliceFiles_cons _ _ hfiles]
  have hie : files.isEmpty = false := by
    cases files with
    | nil => exact absurd rfl hne
    | cons a t => rfl
  have hke : (reportSliceKeys m).isEmpty = false := by
    cases hk : reportSliceKeys m with
    | nil => exact absurd hk hkeys
    | cons a t => rfl
  simp only [hie, hfields, Bool.not_true, hke, hinterAll, Bool.false_eq_true, if_false]

/-- Counterexample to claim C3 as stated: the manifest declares slice id
`"A"` and the archive holds a file `A.json` — the key appears among the
file basenames — yet because the payload's internal `report_slice_id` is
`"B"`, no `ReportSlice` is created and extraction raises the fatal error
instead of returning a summary (pairing is by payload id, not basename). -/
theorem extract_basename_pairing_counterexample :
    reportSliceKeys cManifest = ["A"]
    ∧ basename "A.json" = "A"
    ∧ extract_and_create_slices "0001" 1
        [⟨"metadata.json", some cManifest⟩, ⟨"A.json", some cSliceMismatch⟩]
      = .error .fatal :=
  ⟨rfl, rfl, rfl⟩

/-- Claim C3 (amended): when the manifest decodes with its required fields,
non-empty `report_slices` keys meeting the slice-file basenames, and
every slice file decodes to a mapping, extraction creates exactly one
`NEW` `ReportSlice` per slice file whose payload `report_slice_id` lies
among the manifest keys (files with non-matching payload ids and
manifest ids with no matching payload are dropped silently), returns the
summary `{report_platform_id: manifest.report_id, source:
manifest.source}` extended with `source_metadata` exactly when the
manifest contains it — unless zero slices result, which is fatal. -/
theorem extract_and_create_slices_correct (acct : String) (owner : Nat) (m : Json)
    (files : List Member)
    (hfiles : ∀ f ∈ files, isSliceFile f = true)
    (hobj : ∀ f ∈ files, ∃ kvs, f.content = some (Json.obj kvs))
    (hfields : manifestFieldsOk m = true)
    (hkeys : reportSliceKeys m ≠ [])
    (hinter : ∃ f ∈ files, (reportSliceKeys m).contains (basename f.name) = true) :
    (files.filterMap (sliceOf (reportSliceKeys m) acct owner) = [] →
        extract_and_create_slices acct owner (⟨"metadata.json", some m⟩ :: files)
          = .error .fatal)
    ∧ (files.filterMap (sliceOf (reportSliceKeys m) acct owner) ≠ [] →
        extract_and_create_slices acct owner (⟨"metadata.json", some m⟩ :: files)
          = .ok (mkSummary m, files.filterMap (sliceOf (reportSliceKeys m) acct owner)))
    ∧ (∀ s ∈ files.filterMap (sliceOf (reportSliceKeys m) acct owner),
        s.state = SState.NEW
        ∧ (reportSliceKeys m).contains s.report_slice_id = true
        ∧ ∃ f ∈ files, f.content = some s.report_json
            ∧ s.report_json.lookupStr "report_slice_id" = some s.report_slice_id)
    ∧ (mkSummary m).report_platform_id = (m.lookup "report_id").getD Json.null
    ∧ (mkSummary m).source = (m.lookup "source").getD Json.null
    ∧ (mkSummary m).source_metadata = m.lookup "source_metadata" := by
  obtain ⟨f0, hf0, hf0k⟩ := hinter
  have hne : files ≠ [] := List.ne_nil_of_mem hf0
  have hinterAll : files.all
      (fun f => !(reportSliceKeys m).contains (basename f.name)) = false := by
    rw [List.all_eq_false]
    exact ⟨f0, hf0, by simpa using hf0k⟩
  have heq := extract_good_manifest_eq acct owner m files hfiles hne hfields hkeys hinterAll
  rw [processSliceFiles_all_obj _ _ _ files hobj] at heq
  refine ⟨?_, ?_, ?_, rfl, rfl, rfl⟩
  · intro h0
    rw [heq, h0]
    rfl
  · intro h0
    rw [heq]
    have hie : (files.filterMap (sliceOf (reportSliceKeys m) acct owner)).isEmpty = false := by
      cases hc : files.filterMap (sliceOf (reportSliceKeys m) acct owner) with
      | nil => exact absurd hc h0
      | cons a t => rfl
    simp [hie]
  · intro s hs
    obtain ⟨f, hf, hsf⟩ := List.mem_filterMap.mp hs
    unfold sliceOf at hsf
    cases hc : f.content with
    | none => rw [hc] at hsf; cases hsf
    | some j =>
      rw [hc] at hsf
      dsimp only at hsf
      cases hsid : j.lookupStr "report_slice_id" with
      | none => rw [hsid] at hsf; cases hsf
      | some sid =>
        rw [hsid] at hsf
        dsimp only at hsf
        by_cases hk : (reportSliceKeys m).contains sid = true
        · rw [if_pos hk] at hsf
          cases hsf
          exact ⟨rfl, hk, f, hf, hc, hsid⟩
        · rw [if_neg hk] at hsf
          cases hsf

/-- Witness for C3 (amended): the spec's round-trip — manifest
`{report_id: X, source: S, report_slices: {A: {}}}` with file
`A.json = {report_slice_id: A}` yields exactly one `NEW` slice and the
summary `{report_platform_id: X, source: S}` with no `source_metadata`. -/
theorem extract_and_create_slices_correct_witness :
    extract_and_create_slices "0001" 1
        [⟨"metadata.json", some cManifest⟩, ⟨"A.json", some cSliceGood⟩]
      = .ok (mkSummary cManifest, [mkNewSlice "0001" 1 "A" cSliceGood])
    ∧ (mkNewSlice "0001" 1 "A" cSliceGood).state = SState.NEW
    ∧ (mkSummary cManifest).report_platform_id = Json.str "X"
    ∧ (mkSummary cManifest).source = Json.str "S"
    ∧ (mkSummary cManifest).source_metadata = none := by
  obtain ⟨_, h2, h3, _⟩ :=
    extract_and_create_slices_correct "0001" 1 cManifest [⟨"A.json", some cSliceGood⟩]
      (by intro f hf; rw [List.mem_singleton] at hf; subst hf; rfl)
      (by intro f hf; rw [List.mem_singleton] at hf; subst hf
          exact ⟨[("report_slice_id", Json.str "A")], rfl⟩)
      rfl
      (by rw [show reportSliceKeys cManifest = ["A"] from rfl]
          exact List.cons_ne_nil _ _)
      ⟨⟨"A.json", some cSliceGood⟩, List.mem_singleton.mpr rfl, rfl⟩
  refine ⟨?_, ?_, rfl, rfl, rfl⟩
  · have h := h2 (by
      rw [show [(⟨"A.json", some cSliceGood⟩ : Member)].filterMap
            (sliceOf (reportSliceKeys cManifest) "0001" 1)
          = [mkNewSlice "0001" 1 "A" cSliceGood] from rfl]
      exact List.cons_ne_nil _ _)
    exact h.trans (by rfl)
  · exact (h3 (mkNewSlice "0001" 1 "A" cSliceGood)
      (by rw [show [(⟨"A.json", some cSliceGood⟩ : Member)].filterMap
            (sliceOf (reportSliceKeys cManifest) "0001" 1)
          = [mkNewSlice "0001" 1 "A" cSliceGood] from rfl]
          exact List.mem_singleton.mpr rfl)).1

/-- Counterexample to claim C4 as stated: with a valid manifest and a slice
file whose bytes fail to decode, extraction raises the fatal error, not
the retryable one the claim promises. -/
theorem extract_undecodable_slice_counterexample :
    extract_and_create_slices "0001" 1
        [⟨"metadata.json", some cManifest⟩, ⟨"A.json", none⟩]
      = .error .fatal
    ∧ extract_and_create_slices "0001" 1
        [⟨"metadata.json", some cManifest⟩, ⟨"A.json", none⟩]
      ≠ .error .retry := by
  refine ⟨rfl, ?_⟩
  intro h
  rw [show extract_and_create_slices "0001" 1
        [⟨"metadata.json", some cManifest⟩, ⟨"A.json", none⟩]
      = (.error .fatal : Except ExtractError (Summary × List ReportSlice)) from rfl] at h
  exact ExtractError.noConfusion (Except.error.inj h)

/-- Claim C4 (amended): with a well-formed manifest, the first offending
slice file decides the error class — a slice whose bytes fail to decode
is fatal (like an undecodable manifest), while a slice that decodes to a
non-mapping value is retryable; an undecodable manifest is always fatal. -/
theorem extract_slice_error_classification (acct : String) (owner : Nat) (m : Json)
    (pre post : List Member) (bname : String)
    (hpre_s : ∀ f ∈ pre, isSliceFile f = true)
    (hpre_o : ∀ f ∈ pre, ∃ kvs, f.content = some (Json.obj kvs))
    (hpost : ∀ f ∈ post, isSliceFile f = true)
    (hfields : manifestFieldsOk m = true)
    (hkeys : reportSliceKeys m ≠ []) :
    (∀ c : Option Json, isSliceFile ⟨bname, c⟩ = true →
        (∃ f ∈ pre ++ ⟨bname, c⟩ :: post,
            (reportSliceKeys m).contains (basename f.name) = true) →
        (c = none →
            extract_and_create_slices acct owner
              (⟨"metadata.json", some m⟩ :: (pre ++ ⟨bname, c⟩ :: post)) = .error .fatal)
        ∧ (∀ j, c = some j → j.isObj = false →
            extract_and_create_slices acct owner
              (⟨"metadata.json", some m⟩ :: (pre ++ ⟨bname, c⟩ :: post)) = .error .retry))
    ∧ (∀ rest : List Member,
        extract_and_create_slices acct owner (⟨"metadata.json", none⟩ :: rest)
          = .error .fatal) := by
  constructor
  · intro c hbad hinter
    have hfiles : ∀ f ∈ pre ++ ⟨bname, c⟩ :: post, isSliceFile f = true := by
      intro f hf
      rcases List.mem_append.mp hf with hf | hf
      · exact hpre_s f hf
      · rcases List.mem_cons.mp hf with hf | hf
        · subst hf; exact hbad
        · exact hpost f hf
    have hne : pre ++ ⟨bname, c⟩ :: post ≠ [] := by
      intro hh
      exact absurd (List.append_eq_nil.mp hh).2 (List.cons_ne_nil _ _)
    obtain ⟨f0, hf0, hf0k⟩ := hinter
    have hinterAll : (pre ++ ⟨bname, c⟩ :: post).all
        (fun f => !(reportSliceKeys m).contains (basename f.name)) = false := by
      rw [List.all_eq_false]
      exact ⟨f0, hf0, by simpa using hf0k⟩
    have heq := extract_good_manifest_eq acct owner m (pre ++ ⟨bname, c⟩ :: post)
      hfiles hne hfields hkeys hinterAll
    constructor
    · intro hcn
      subst hcn
      have hwalk : processSliceFiles (reportSliceKeys m) acct owner
          (pre ++ ⟨bname, none⟩ :: post) = .error .fatal :=
        processSliceFiles_append_error _ _ _ _ _ pre hpre_o rfl
      rw [heq, hwalk]
    · intro j hcj hnobj
      subst hcj
      have hstep : processSliceFiles (reportSliceKeys m) acct owner
          (⟨bname, some j⟩ :: post) = .error .retry := by
        unfold processSliceFiles
        dsimp only
        simp [hnobj]
      have hwalk : processSliceFiles (reportSliceKeys m) acct owner
          (pre ++ ⟨bname, some j⟩ :: post) = .error .retry :=
        processSliceFiles_append_error _ _ _ _ _ pre hpre_o hstep
      rw [heq, hwalk]
  · intro rest
    unfold extract_and_create_slices
    rw [findManifest_cons]
    dsimp only
    cases he : (sliceFiles (⟨"metadata.json", none⟩ :: rest)).isEmpty <;> simp [he]

/-- Witness for C4 (amended) at the unit tests' shapes: an undecodable
`A.json` under the valid manifest is fatal; an `A.json` decoding to a
bare string is retryable; an undecodable manifest is fatal. -/
theorem extract_slice_error_classification_witness :
    extract_and_create_slices "0001" 1
        [⟨"metadata.json", some cManifest⟩, ⟨"A.json", none⟩] = .error .fatal
    ∧ extract_and_create_slices "0001" 1
        [⟨"metadata.json", some cManifest⟩, ⟨"A.json", some (Json.str "bad")⟩]
      = .error .retry
    ∧ extract_and_create_slices "0001" 1
        [⟨"metadata.json", none⟩, ⟨"A.json", some cSliceGood⟩] = .error .fatal := by
  have hnone := extract_slice_error_classification "0001" 1 cManifest [] [] "A.json"
    (by intro f hf; cases hf) (by intro f hf; cases hf) (by intro f hf; cases hf)
    rfl
    (by rw [show reportSliceKeys cManifest = ["A"] from rfl]; exact List.cons_ne_nil _ _)
  refine ⟨?_, ?_, ?_⟩
  · exact (hnone.1 none rfl
      ⟨⟨"A.json", none⟩, List.mem_singleton.mpr rfl, rfl⟩).1 rfl
  · exact (hnone.1 (some (Json.str "bad")) rfl
      ⟨⟨"A.json", some (Json.str "bad")⟩, List.mem_singleton.mpr rfl, rfl⟩).2
      (Json.str "bad") rfl rfl
  · exact hnone.2 [⟨"A.json", some cSliceGood⟩]

/-- Claim C5: extraction fails with the fatal (non-retryable) error
whenever no member named `metadata.json` is present, or the manifest
member fails to decode, or the manifest's `report_slices` mapping is
empty, or its keys do not intersect the basenames of the slice files
present. -/
theorem extract_fatal_conditions (acct : String) (owner : Nat) (archive : List Member) :
    (findManifest archive = none →
        extract_and_create_slices acct owner archive = .error .fatal)
    ∧ (∀ mf, findManifest archive = some mf → mf.content = none →
        extract_and_create_slices acct owner archive = .error .fatal)
    ∧ (∀ mf manifest, findManifest archive = some mf → mf.content = some manifest →
        reportSliceKeys manifest = [] →
        extract_and_create_slices acct owner archive = .error .fatal)
    ∧ (∀ mf manifest, findManifest archive = some mf → mf.content = some manifest →
        (sliceFiles archive).all
            (fun f => !(reportSliceKeys manifest).contains (basename f.name)) = true →
        extract_and_create_slices acct owner archive = .error .fatal) := by
  refine ⟨?_, ?_, ?_, ?_⟩
  · intro h
    unfold extract_and_create_slices
    rw [h]
  · intro mf h hc
    unfold extract_and_create_slices
    rw [h]
    dsimp only
    cases he : (sliceFiles archive).isEmpty <;> simp [he, hc]
  · intro mf manifest h hc hk
    unfold extract_and_create_slices
    rw [h]
    dsimp only
    cases he : (sliceFiles archive).isEmpty <;>
      cases hfo : manifestFieldsOk manifest <;> simp [he, hc, hfo, hk]
  · intro mf manifest h hc hall
    unfold extract_and_create_slices
    rw [h]
    dsimp only
    cases he : (sliceFiles archive).isEmpty
    · rw [hc]
      dsimp only
      cases hfo : manifestFieldsOk manifest
      · simp
      · cases hke : (reportSliceKeys manifest).isEmpty
        · rw [hall]
          simp
        · simp
    · simp

/-- Witness for C5 at the unit tests' inputs: a manifest-less archive, an
undecodable manifest, an empty `report_slices` mapping, and keys meeting
no file basename are each fatal. -/
theorem extract_fatal_conditions_witness :
    extract_and_create_slices "0001" 1 [⟨"2345322.json", some cSliceGood⟩] = .error .fatal
    ∧ extract_and_create_slices "0001" 1
        [⟨"metadata.json", none⟩, ⟨"A.json", some cSliceGood⟩] = .error .fatal
    ∧ extract_and_create_slices "0001" 1
        [⟨"metadata.json", some cManifestEmptySlices⟩, ⟨"A.json", some cSliceGood⟩]
      = .error .fatal
    ∧ extract_and_create_slices "0001" 1
        [⟨"metadata.json", some cManifest⟩, ⟨"Z.json", some cSliceGood⟩]
      = .error .fatal := by
  refine ⟨?_, ?_, ?_, ?_⟩
  · exact (extract_fatal_conditions "0001" 1 [⟨"2345322.json", some cSliceGood⟩]).1 rfl
  · exact (extract_fatal_conditions "0001" 1
      [⟨"metadata.json", none⟩, ⟨"A.json", some cSliceGood⟩]).2.1
      ⟨"metadata.json", none⟩ rfl rfl
  · exact (extract_fatal_conditions "0001" 1
      [⟨"metadata.json", some cManifestEmptySlices⟩, ⟨"A.json", some cSliceGood⟩]).2.2.1
      ⟨"metadata.json", some cManifestEmptySlices⟩ cManifestEmptySlices rfl rfl rfl
  · exact (extract_fatal_conditions "0001" 1
      [⟨"metadata.json", some cManifest⟩, ⟨"Z.json", some cSliceGood⟩]).2.2.2
      ⟨"metadata.json", some cManifest⟩ cManifest rfl rfl rfl

end Marketplace
